import Mathlib

/-!
Shallow embedding of the Soroban ledger ingester
(`daccred/sorobangraph.attest.so`), covering the value decoder, the record
extractor, the contract filter, the per-ledger persistence unit, the
streaming control loop, and the WebSocket broadcast hub, together with
theorems settling the claims of the specification about them.
-/

namespace Sorobangraph

/-! ## Hexadecimal rendering (model of Go `fmt.Sprintf("%x", bytes)`) -/

/-- One lowercase hexadecimal digit: `0`-`9` then `a`-`f`. -/
def hexDigit (n : Nat) : Char :=
  if n < 10 then Char.ofNat (48 + n) else Char.ofNat (87 + n)

/-- Character list of the lowercase hex rendering of a byte string: two
digits per byte, as the Go verb `%x` prints a byte slice. -/
def bytesToHexChars : List Nat → List Char
  | [] => []
  | b :: rest => hexDigit (b / 16 % 16) :: hexDigit (b % 16) :: bytesToHexChars rest

/-- Lowercase hex rendering of a byte string (bytes as `Nat` values `< 256`). -/
def bytesToHex (bs : List Nat) : String := ⟨bytesToHexChars bs⟩

/-- The sixteen lowercase hexadecimal digit characters. -/
def lowerHexDigits : List Char := "0123456789abcdef".data

/-! ## Contract values (`xdr.ScVal`)

The decoders of the ingester (`scValToString` / `scValToJSON` in the handlers
package) recognize a closed set of variants: bool, i32, i64, u32, u64,
symbol, string, bytes, vector, map.  Any other variant reaches the
default arm of the decoders, which re-encodes the value to XDR binary with
`MarshalBinary` and renders that as lowercase hex.  An unrecognized
variant is characterized exactly by its wire bytes, so the model carries
them in the `scvOther` constructor. -/

inductive ScVal where
  | scvBool (b : Bool)
  | scvI32 (n : Int)
  | scvI64 (n : Int)
  | scvU32 (n : Nat)
  | scvU64 (n : Nat)
  | scvSymbol (s : String)
  | scvString (s : String)
  | scvBytes (bs : List Nat)
  | scvVec (xs : List ScVal)
  | scvMap (entries : List (ScVal × ScVal))
  | scvOther (wire : List Nat)

/-- Model of the external XDR encoder `ScVal.MarshalBinary` of the
`stellar/go/xdr` package: a four-byte discriminant followed by the body.
For an unrecognized variant (`scvOther`) the wire form is the carried
byte string itself.  Only the `scvOther` case is ever inspected by the
theorems; the remaining cases give the encoder a definite value. -/
def marshalBinary : ScVal → List Nat
  | .scvBool b => [0, 0, 0, 0, 0, 0, 0, if b then 1 else 0]
  | .scvI32 n => 0 :: 0 :: 0 :: 1 :: [(n.toNat % 256)]
  | .scvI64 n => 0 :: 0 :: 0 :: 2 :: [(n.toNat % 256)]
  | .scvU32 n => 0 :: 0 :: 0 :: 3 :: [n % 256]
  | .scvU64 n => 0 :: 0 :: 0 :: 4 :: [n % 256]
  | .scvSymbol s => 0 :: 0 :: 0 :: 5 :: s.data.map Char.toNat
  | .scvString s => 0 :: 0 :: 0 :: 6 :: s.data.map Char.toNat
  | .scvBytes bs => 0 :: 0 :: 0 :: 7 :: bs
  | .scvVec _ => [0, 0, 0, 8]
  | .scvMap _ => [0, 0, 0, 9]
  | .scvOther wire => wire

/-- Model of `Ingester.scValToString`: canonical string form of a contract value.
Bool renders with `%v`, the four integer variants with `%d`, symbol and
string as their text, bytes as lowercase hex; every other variant
(including vectors and maps, which this function does not handle) falls
through to hex of the re-encoded binary wire form. -/
def scValToString : ScVal → String
  | .scvBool b => toString b
  | .scvI32 n => toString n
  | .scvI64 n => toString n
  | .scvU32 n => toString n
  | .scvU64 n => toString n
  | .scvSymbol s => s
  | .scvString s => s
  | .scvBytes bs => bytesToHex bs
  | .scvVec xs => bytesToHex (marshalBinary (.scvVec xs))
  | .scvMap entries => bytesToHex (marshalBinary (.scvMap entries))
  | .scvOther wire => bytesToHex (marshalBinary (.scvOther wire))

/-- JSON-compatible value tree, the codomain of `scValToJSON`.  A Go
`map[string]interface{}` is modelled as an association list built with
overwrite-on-duplicate insertion, mirroring Go map assignment. -/
inductive JVal where
  | jBool (b : Bool)
  | jInt (n : Int)
  | jStr (s : String)
  | jArr (xs : List JVal)
  | jObj (fields : List (String × JVal))

/-- Assignment `m[k] = v` on a Go map modelled as an association list:
replaces the binding of `k` if present, otherwise appends it. -/
def upsertKey (k : String) (v : JVal) : List (String × JVal) → List (String × JVal)
  | [] => [(k, v)]
  | (k', v') :: rest => if k = k' then (k, v) :: rest else (k', v') :: upsertKey k v rest

mutual

/-- Model of `Ingester.scValToJSON`: JSON form of a contract value.  Scalars map to
their JSON scalar, bytes to lowercase hex, vectors to an ordered array of
recursively decoded elements, maps to an object whose keys are the
canonical string form (`scValToString`) of the entry keys and whose
values are recursively decoded; any other variant falls through to hex of
the re-encoded binary wire form. -/
def scValToJSON : ScVal → JVal
  | .scvBool b => .jBool b
  | .scvI32 n => .jInt n
  | .scvI64 n => .jInt n
  | .scvU32 n => .jInt (Int.ofNat n)
  | .scvU64 n => .jInt (Int.ofNat n)
  | .scvSymbol s => .jStr s
  | .scvString s => .jStr s
  | .scvBytes bs => .jStr (bytesToHex bs)
  | .scvVec xs => .jArr (scValListToJSON xs)
  | .scvMap entries => .jObj (scMapToJSON entries [])
  | .scvOther wire => .jStr (bytesToHex (marshalBinary (.scvOther wire)))

/-- The element loop of the vector case of `scValToJSON`, in element order. -/
def scValListToJSON : List ScVal → List JVal
  | [] => []
  | x :: xs => scValToJSON x :: scValListToJSON xs

/-- The entry loop of the map case of `scValToJSON`: each entry assigns
`result[scValToString key] = scValToJSON val` into the accumulated Go
map, entries taken in order. -/
def scMapToJSON : List (ScVal × ScVal) → List (String × JVal) → List (String × JVal)
  | [], acc => acc
  | e :: es, acc => scMapToJSON es (upsertKey (scValToString e.1) (scValToJSON e.2) acc)

end

/-! ## Contract events and the derived event id (`storeSorobanEvent`) -/

/-- Model of `xdr.ContractEvent` as consumed by `storeSorobanEvent`:
an optional 32-byte contract id, the event type tag, and the topics and
data values of the body. -/
structure CEvent where
  contractId : Option (List Nat)
  isSystem : Bool
  topics : List ScVal
  data : ScVal

/-- The `contractID` computed by `storeSorobanEvent`: lowercase hex of the
contract id hash when present, the empty string otherwise. -/
def eventContractId (e : CEvent) : String :=
  match e.contractId with
  | none => ""
  | some h => bytesToHex h

/-- The event id derivation of `storeSorobanEvent`:
`fmt.Sprintf("%s-%d-%s", txHash, len(topics), contractID)`. -/
def eventId (txHash : String) (e : CEvent) : String :=
  txHash ++ "-" ++ toString e.topics.length ++ "-" ++ eventContractId e

/-! ## Record extraction (`processLedger` / `processTransaction`) -/

/-- Memo of a transaction envelope, as handled by the 4-way switch in
`processTransaction` (absence of a memo leaves type and value empty). -/
inductive Memo where
  | noMemo
  | text (s : String)
  | memoId (n : Nat)
  | hash (bs : List Nat)
  | ret (bs : List Nat)

/-- The memo switch of `processTransaction`: returns `(memoType, memoValue)`. -/
def memoTypeValue : Memo → String × String
  | .noMemo => ("", "")
  | .text s => ("text", s)
  | .memoId n => ("id", toString n)
  | .hash bs => ("hash", bytesToHex bs)
  | .ret bs => ("return", bytesToHex bs)

/-- One ledger transaction (`ingest.LedgerTransaction`) as consumed by
`processTransaction`: its index within the ledger, result hash and
success flag, envelope fields, and the transaction metadata shape.
`metaV` models `UnsafeMeta.V`, `hasV3` that `UnsafeMeta.V3 != nil`,
`hasSorobanMeta` that `UnsafeMeta.V3.SorobanMeta != nil`, and `events`
the list `UnsafeMeta.V3.SorobanMeta.Events`.  Operations are modelled by
their count, since only their derived ids reach the persistence layer in
the claims under study. -/
structure TxData where
  index : Nat
  hash : String
  successful : Bool
  sourceAccount : String
  fee : Nat
  opCount : Nat
  memo : Memo
  metaV : Nat
  hasV3 : Bool
  hasSorobanMeta : Bool
  events : List CEvent

/-- Model of `models.Transaction` as built by `processTransaction` (time values as
unix seconds; `now` models the `time.Now()` call at processing time). -/
structure TransactionRecord where
  id : String
  hash : String
  ledger : Nat
  index : Nat
  sourceAccount : String
  feePaid : Nat
  operationCount : Nat
  createdAt : Int
  memoType : String
  memoValue : String
  successful : Bool

/-- The `models.Transaction` literal of `processTransaction`
(part_005 lines 278-290): the id is `{ledgerSeq}-{index}` and
`CreatedAt` is `time.Now()` — the ingestion wall clock `now`, not the
ledger close time. -/
def mkTransaction (now : Int) (ledgerSeq : Nat) (tx : TxData) : TransactionRecord :=
  { id := toString ledgerSeq ++ "-" ++ toString tx.index
    hash := tx.hash
    ledger := ledgerSeq
    index := tx.index
    sourceAccount := tx.sourceAccount
    feePaid := tx.fee
    operationCount := tx.opCount
    createdAt := now
    memoType := (memoTypeValue tx.memo).1
    memoValue := (memoTypeValue tx.memo).2
    successful := tx.successful }

/-- Close metadata of one ledger (`xdr.LedgerCloseMeta`) as consumed by
`processLedger`: the sequence, header fields read into the ledger
record, and the transactions read back by the transaction reader. -/
structure LedgerData where
  sequence : Nat
  headerHash : List Nat
  previousHash : List Nat
  closeTime : Int
  totalCoins : Int
  feePool : Int
  baseFee : Nat
  baseReserve : Nat
  maxTxSetSize : Nat
  protocolVersion : Nat
  txs : List TxData

/-- Model of `models.LedgerInfo` as built by `processLedger`. -/
structure LedgerRecord where
  sequence : Nat
  hash : String
  previousHash : String
  transactionCount : Nat
  operationCount : Nat
  closedAt : Int
  totalCoins : Int
  feePool : Int
  baseFee : Nat
  baseReserve : Nat
  maxTxSetSize : Nat
  protocolVersion : Nat

/-- The `models.LedgerInfo` literal of `processLedger` (part_005 lines
183-196): `OperationCount` sums the operation counts of the envelopes and
`ClosedAt` is `time.Unix(header.ScpValue.CloseTime, 0)` — the consensus
close time. -/
def mkLedgerInfo (l : LedgerData) : LedgerRecord :=
  { sequence := l.sequence
    hash := bytesToHex l.headerHash
    previousHash := bytesToHex l.previousHash
    transactionCount := l.txs.length
    operationCount := (l.txs.map TxData.opCount).sum
    closedAt := l.closeTime
    totalCoins := l.totalCoins
    feePool := l.feePool
    baseFee := l.baseFee
    baseReserve := l.baseReserve
    maxTxSetSize := l.maxTxSetSize
    protocolVersion := l.protocolVersion }

/-! ## Contract filter -/

/-- Modelled from the spec: the contract-filter predicate
`Ingester.isFilteredContract` over `Config.FilterContracts`.  Its
defining source file is not present in the repository snapshot — only
its test (`TestContractFiltering` in `handlers/ingester_test.go`) and
the configuration wiring in `main.go` are.  Per spec §4.3: an empty
address is always rejected; with an empty filter set every non-empty
address is allowed; with a non-empty filter set an address is allowed
iff it is a member of the set. -/
def isFilteredContract (filterContracts : List String) (address : String) : Bool :=
  if address = "" then false
  else if filterContracts.isEmpty then true
  else filterContracts.contains address

/-! ## The per-ledger persistence unit

`processLedger` opens one database transaction (`db.Begin` with a
deferred `Rollback`), writes the ledger row, the transaction rows with
their operation and contract-event rows, and the checkpoint row, then
commits.  The abstract persistence sink is modelled by a failure oracle
`fail : DBWrite → Bool` deciding which individual `Exec` calls error;
the open transaction is a buffer of writes, and a commit appends the
buffer to the committed database. -/

/-- One row write issued inside the per-ledger database transaction.
`eventRow` carries the ledger column written by `storeSorobanEvent`,
`checkpointRow` the `last_ledger` value of `updateIngestionState`. -/
inductive DBWrite where
  | ledgerRow (seq : Nat)
  | txRow (id : String)
  | opRow (id : String)
  | eventRow (id : String) (ledgerField : Nat)
  | checkpointRow (lastLedger : Nat)
deriving DecidableEq

/-- One `Exec` against the open transaction: errors when the oracle says
so, otherwise appends the write to the buffer. -/
def execWrite (fail : DBWrite → Bool) (buf : List DBWrite) (w : DBWrite) :
    Except Unit (List DBWrite) :=
  if fail w then .error () else .ok (buf ++ [w])

/-- The operation loop of `processTransaction`: one `processOperation`
per operation index, id `{txId}-{opIndex}`; a failed operation insert is
logged by the caller and skipped (the loop continues). -/
def processOps (fail : DBWrite → Bool) (txId : String) :
    List Nat → List DBWrite → List DBWrite
  | [], buf => buf
  | idx :: rest, buf =>
    match execWrite fail buf (.opRow (txId ++ "-" ++ toString idx)) with
    | .error _ => processOps fail txId rest buf
    | .ok buf1 => processOps fail txId rest buf1

/-- The event loop of `processSorobanEvents`: one `storeSorobanEvent`
per event, writing the id derived by `eventId` and the ledger column
`cur` (the current-ledger cursor of the ingester); a failed event insert is
logged and skipped. -/
def storeEvents (fail : DBWrite → Bool) (cur : Nat) (txHash : String) :
    List CEvent → List DBWrite → List DBWrite
  | [], buf => buf
  | e :: rest, buf =>
    match execWrite fail buf (.eventRow (eventId txHash e) cur) with
    | .error _ => storeEvents fail cur txHash rest buf
    | .ok buf1 => storeEvents fail cur txHash rest buf1

/-- Model of `processSorobanEvents`: returns the buffer unchanged unless the
metadata is V3 with non-nil `V3` pointer, the transaction result is
successful, and `SorobanMeta` is non-nil; then stores each event with
ledger column `cur` read from the current-ledger cursor of the ingester. -/
def processSorobanEvents (fail : DBWrite → Bool) (cur : Nat)
    (buf : List DBWrite) (tx : TxData) : List DBWrite :=
  if tx.metaV ≠ 3 ∨ tx.hasV3 = false then buf
  else if tx.successful ∧ tx.hasSorobanMeta then
    storeEvents fail cur tx.hash tx.events buf
  else buf

/-- Model of `processTransaction` inside the open ledger transaction: inserts the
transaction row (an error here is returned to the caller, skipping this
operations and events of this transaction), then the operation rows, then —
when `UnsafeMeta.V == 3 && UnsafeMeta.V3 != nil` — the Soroban events;
operation and event insert failures are logged and swallowed. -/
def processTransaction (fail : DBWrite → Bool) (cur ledgerSeq : Nat)
    (buf : List DBWrite) (tx : TxData) : Except Unit (List DBWrite) :=
  let txId := toString ledgerSeq ++ "-" ++ toString tx.index
  match execWrite fail buf (.txRow txId) with
  | .error _ => .error ()
  | .ok buf1 =>
    let buf2 := processOps fail txId (List.range tx.opCount) buf1
    let buf3 :=
      if tx.metaV = 3 ∧ tx.hasV3 = true then processSorobanEvents fail cur buf2 tx
      else buf2
    .ok buf3

/-- The transaction-reader loop of `processLedger`: a failed
`processTransaction` is logged and swallowed, the loop continues with
the next transaction. -/
def processTxs (fail : DBWrite → Bool) (cur ledgerSeq : Nat) :
    List TxData → List DBWrite → List DBWrite
  | [], buf => buf
  | tx :: rest, buf =>
    match processTransaction fail cur ledgerSeq buf tx with
    | .error _ => processTxs fail cur ledgerSeq rest buf
    | .ok buf1 => processTxs fail cur ledgerSeq rest buf1

/-- Model of `processLedger`: one atomic unit per ledger.  Begins a transaction
(empty buffer), stores the ledger row (failure aborts the unit), runs
the transaction loop (per-row failures swallowed), updates the
checkpoint row (failure aborts), and commits, appending the whole
buffer to the committed database; on abort the deferred rollback leaves
the committed database unchanged (`.error`).  The argument `cur` is the
current-ledger cursor of the ingester at the time of processing. -/
def processLedger (fail : DBWrite → Bool) (db : List DBWrite) (cur : Nat)
    (l : LedgerData) : Except Unit (List DBWrite) :=
  match execWrite fail [] (.ledgerRow l.sequence) with
  | .error _ => .error ()
  | .ok buf0 =>
    let buf1 := processTxs fail cur l.sequence l.txs buf0
    match execWrite fail buf1 (.checkpointRow l.sequence) with
    | .error _ => .error ()
    | .ok buf2 => .ok (db ++ buf2)

/-! ## The streaming loop (`processLedgers`) -/

/-- Outcome of `ledgerBackend.GetLedger` for one requested sequence:
end-of-stream (`io.EOF`), another fetch error, or the close metadata of
the requested ledger. -/
inductive FetchResult where
  | eof
  | fetchErr
  | ok (l : LedgerData)

/-- The ingester state visible to the streaming loop: the committed
database and the in-memory current-ledger cursor (plus the processed
counter of the stats block). -/
structure IngestState where
  db : List DBWrite
  currentLedger : Nat
  ledgersProcessed : Nat
deriving DecidableEq

/-- One iteration of the `processLedgers` loop: fetch sequence
`currentLedger + 1`; on `io.EOF` sleep and retry (state unchanged); on
another fetch error log, sleep and retry (state unchanged); on fetch
success run `processLedger`, and on its failure log and retry the same
ledger (state unchanged), else advance the cursor to the processed
sequence of the processed ledger and bump the processed counter. -/
def ingestStep (fail : DBWrite → Bool) (fetch : Nat → FetchResult)
    (s : IngestState) : IngestState :=
  match fetch (s.currentLedger + 1) with
  | .eof => s
  | .fetchErr => s
  | .ok l =>
    match processLedger fail s.db s.currentLedger l with
    | .error _ => s
    | .ok db1 =>
      { db := db1, currentLedger := l.sequence,
        ledgersProcessed := s.ledgersProcessed + 1 }

/-- Runs `n` iterations of the streaming loop from state `s0`. -/
def runIngest (fail : DBWrite → Bool) (fetch : Nat → FetchResult)
    (s0 : IngestState) : Nat → IngestState
  | 0 => s0
  | n + 1 => ingestStep fail fetch (runIngest fail fetch s0 n)

/-! ## The WebSocket broadcast hub (`WebSocketHub.run`) -/

/-- One registered WebSocket client: its buffered `send` channel is
modelled as the queued message list plus the channel capacity, and
`closed` records that the hub called `close(client.send)`. -/
structure WSClient (α : Type) where
  clientId : Nat
  send : List α
  sendCap : Nat
  closed : Bool
deriving DecidableEq

/-- The broadcast arm of `WebSocketHub.run`: for each registered client,
`select { case client.send <- message: default: delete(h.clients, client);
close(client.send) }` — the non-blocking send succeeds exactly when the
channel buffer has room, otherwise the client is removed and its channel
closed.  Returns the remaining client set and the dropped clients. -/
def broadcastStep {α : Type} (m : α) :
    List (WSClient α) → List (WSClient α) × List (WSClient α)
  | [] => ([], [])
  | c :: rest =>
    let r := broadcastStep m rest
    if c.send.length < c.sendCap then
      ({ c with send := c.send ++ [m] } :: r.1, r.2)
    else
      (r.1, { c with closed := true } :: r.2)

/-! ## Sample inputs used by witnesses -/

/-- A Soroban contract event with one topic. -/
def sampleEvent : CEvent :=
  { contractId := some [171, 205], isSystem := false,
    topics := [.scvSymbol "COUNTER"], data := .scvI32 5 }

/-- A successful Soroban-bearing transaction carrying `sampleEvent`. -/
def sampleSorobanTx : TxData :=
  { index := 0, hash := "cafe", successful := true, sourceAccount := "GSRC",
    fee := 100, opCount := 1, memo := .noMemo, metaV := 3, hasV3 := true,
    hasSorobanMeta := true, events := [sampleEvent] }

/-- A ledger at sequence 5 containing `sampleSorobanTx`. -/
def sampleLedger : LedgerData :=
  { sequence := 5, headerHash := [1], previousHash := [2],
    closeTime := 1700000000, totalCoins := 0, feePool := 0, baseFee := 100,
    baseReserve := 5000000, maxTxSetSize := 1000, protocolVersion := 21,
    txs := [sampleSorobanTx] }

/-- A failure oracle failing exactly the transaction-row inserts. -/
def failTxRowOnly : DBWrite → Bool
  | .txRow _ => true
  | _ => false

/-- An always-available backend yielding an empty ledger at every
requested sequence. -/
def emptyLedgerFetch : Nat → FetchResult := fun s =>
  .ok { sequence := s, headerHash := [], previousHash := [], closeTime := 0,
        totalCoins := 0, feePool := 0, baseFee := 0, baseReserve := 0,
        maxTxSetSize := 0, protocolVersion := 0, txs := [] }

/-! ## Lemmas about the persistence unit -/

theorem execWrite_ok_eq {fail : DBWrite → Bool} {buf : List DBWrite}
    {w : DBWrite} {buf1 : List DBWrite}
    (h : execWrite fail buf w = .ok buf1) : buf1 = buf ++ [w] := by
  unfold execWrite at h
  split at h
  · exact Except.noConfusion h
  · injection h with h1
    exact h1.symm

theorem execWrite_fail {fail : DBWrite → Bool} {buf : List DBWrite}
    {w : DBWrite} (h : fail w = true) :
    execWrite fail buf w = .error () := by
  simp [execWrite, h]

theorem execWrite_succeed {fail : DBWrite → Bool} {buf : List DBWrite}
    {w : DBWrite} (h : fail w = false) :
    execWrite fail buf w = .ok (buf ++ [w]) := by
  simp [execWrite, h]

theorem processOps_keeps (fail : DBWrite → Bool) (txId : String) :
    ∀ (idxs : List Nat) (buf : List DBWrite) (w : DBWrite),
      w ∈ buf → w ∈ processOps fail txId idxs buf := by
  intro idxs
  induction idxs with
  | nil => intro buf w hw; exact hw
  | cons i rest ih =>
    intro buf w hw
    rw [processOps]
    cases h : execWrite fail buf (.opRow (txId ++ "-" ++ toString i)) with
    | error e => exact ih buf w hw
    | ok buf1 =>
      refine ih buf1 w ?_
      rw [execWrite_ok_eq h]
      exact List.mem_append_left _ hw

theorem processOps_writes (fail : DBWrite → Bool) (txId : String) :
    ∀ (idxs : List Nat) (buf : List DBWrite) (w : DBWrite),
      w ∈ processOps fail txId idxs buf →
      w ∈ buf ∨ ∃ oid, w = .opRow oid := by
  intro idxs
  induction idxs with
  | nil => intro buf w hw; exact Or.inl hw
  | cons i rest ih =>
    intro buf w hw
    rw [processOps] at hw
    cases h : execWrite fail buf (.opRow (txId ++ "-" ++ toString i)) with
    | error e => rw [h] at hw; exact ih buf w hw
    | ok buf1 =>
      rw [h] at hw
      rcases ih buf1 w hw with hin | hop
      · rw [execWrite_ok_eq h] at hin
        rcases List.mem_append.mp hin with hl | hr
        · exact Or.inl hl
        · exact Or.inr ⟨txId ++ "-" ++ toString i, List.mem_singleton.mp hr⟩
      · exact Or.inr hop

theorem storeEvents_keeps (fail : DBWrite → Bool) (cur : Nat) (txHash : String) :
    ∀ (es : List CEvent) (buf : List DBWrite) (w : DBWrite),
      w ∈ buf → w ∈ storeEvents fail cur txHash es buf := by
  intro es
  induction es with
  | nil => intro buf w hw; exact hw
  | cons e rest ih =>
    intro buf w hw
    rw [storeEvents]
    cases h : execWrite fail buf (.eventRow (eventId txHash e) cur) with
    | error e0 => exact ih buf w hw
    | ok buf1 =>
      refine ih buf1 w ?_
      rw [execWrite_ok_eq h]
      exact List.mem_append_left _ hw

theorem storeEvents_writes (fail : DBWrite → Bool) (cur : Nat) (txHash : String) :
    ∀ (es : List CEvent) (buf : List DBWrite) (w : DBWrite),
      w ∈ storeEvents fail cur txHash es buf →
      w ∈ buf ∨ ∃ e ∈ es, w = .eventRow (eventId txHash e) cur := by
  intro es
  induction es with
  | nil => intro buf w hw; exact Or.inl hw
  | cons e rest ih =>
    intro buf w hw
    rw [storeEvents] at hw
    cases h : execWrite fail buf (.eventRow (eventId txHash e) cur) with
    | error e0 =>
      rw [h] at hw
      rcases ih buf w hw with hin | ⟨e1, he1, hweq⟩
      · exact Or.inl hin
      · exact Or.inr ⟨e1, List.mem_cons_of_mem _ he1, hweq⟩
    | ok buf1 =>
      rw [h] at hw
      rcases ih buf1 w hw with hin | ⟨e1, he1, hweq⟩
      · rw [execWrite_ok_eq h] at hin
        rcases List.mem_append.mp hin with hl | hr
        · exact Or.inl hl
        · exact Or.inr ⟨e, List.mem_cons_self _ _, List.mem_singleton.mp hr⟩
      · exact Or.inr ⟨e1, List.mem_cons_of_mem _ he1, hweq⟩

theorem processSorobanEvents_keeps (fail : DBWrite → Bool) (cur : Nat)
    (buf : List DBWrite) (tx : TxData) (w : DBWrite) (hw : w ∈ buf) :
    w ∈ processSorobanEvents fail cur buf tx := by
  unfold processSorobanEvents
  split
  · exact hw
  · split
    · exact storeEvents_keeps fail cur tx.hash tx.events buf w hw
    · exact hw

theorem processSorobanEvents_writes (fail : DBWrite → Bool) (cur : Nat)
    (buf : List DBWrite) (tx : TxData) (w : DBWrite)
    (hw : w ∈ processSorobanEvents fail cur buf tx) :
    w ∈ buf ∨
      (tx.successful = true ∧ tx.metaV = 3 ∧ tx.hasV3 = true ∧
        tx.hasSorobanMeta = true ∧
        ∃ e ∈ tx.events, w = .eventRow (eventId tx.hash e) cur) := by
  unfold processSorobanEvents at hw
  split at hw
  · exact Or.inl hw
  · rename_i hval
    push_neg at hval
    split at hw
    · rename_i hcond
      rcases storeEvents_writes fail cur tx.hash tx.events buf w hw with hin | hev
      · exact Or.inl hin
      · exact Or.inr ⟨hcond.1, hval.1, by simpa using hval.2, hcond.2, hev⟩
    · exact Or.inl hw

theorem processTransaction_keeps {fail : DBWrite → Bool} {cur ledgerSeq : Nat}
    {buf : List DBWrite} {tx : TxData} {buf1 : List DBWrite}
    (h : processTransaction fail cur ledgerSeq buf tx = .ok buf1)
    (w : DBWrite) (hw : w ∈ buf) : w ∈ buf1 := by
  unfold processTransaction at h
  dsimp only at h
  cases h0 : execWrite fail buf (.txRow (toString ledgerSeq ++ "-" ++ toString tx.index)) with
  | error e => rw [h0] at h; exact Except.noConfusion h
  | ok bufA =>
    rw [h0] at h
    dsimp only at h
    injection h with h1
    subst h1
    have hwA : w ∈ bufA := by
      rw [execWrite_ok_eq h0]; exact List.mem_append_left _ hw
    have hwB := processOps_keeps fail (toString ledgerSeq ++ "-" ++ toString tx.index)
      (List.range tx.opCount) bufA w hwA
    split
    · exact processSorobanEvents_keeps fail cur _ tx w hwB
    · exact hwB

theorem processTransaction_writes {fail : DBWrite → Bool} {cur ledgerSeq : Nat}
    {buf : List DBWrite} {tx : TxData} {buf1 : List DBWrite}
    (h : processTransaction fail cur ledgerSeq buf tx = .ok buf1)
    (w : DBWrite) (hw : w ∈ buf1) :
    w ∈ buf ∨ (∃ tid, w = .txRow tid) ∨ (∃ oid, w = .opRow oid) ∨
      (tx.successful = true ∧ tx.metaV = 3 ∧ tx.hasV3 = true ∧
        tx.hasSorobanMeta = true ∧
        ∃ e ∈ tx.events, w = .eventRow (eventId tx.hash e) cur) := by
  unfold processTransaction at h
  dsimp only at h
  cases h0 : execWrite fail buf (.txRow (toString ledgerSeq ++ "-" ++ toString tx.index)) with
  | error e => rw [h0] at h; exact Except.noConfusion h
  | ok bufA =>
    rw [h0] at h
    dsimp only at h
    injection h with h1
    subst h1
    have memA : ∀ v : DBWrite, v ∈ bufA → v ∈ buf ∨ ∃ tid, v = .txRow tid := by
      intro v hv
      rw [execWrite_ok_eq h0] at hv
      rcases List.mem_append.mp hv with hl | hr
      · exact Or.inl hl
      · exact Or.inr ⟨_, List.mem_singleton.mp hr⟩
    have memB : ∀ v : DBWrite,
        v ∈ processOps fail (toString ledgerSeq ++ "-" ++ toString tx.index)
          (List.range tx.opCount) bufA →
        v ∈ buf ∨ (∃ tid, v = .txRow tid) ∨ ∃ oid, v = .opRow oid := by
      intro v hv
      rcases processOps_writes fail _ (List.range tx.opCount) bufA v hv with hin | hop
      · rcases memA v hin with h1 | h2
        · exact Or.inl h1
        · exact Or.inr (Or.inl h2)
      · exact Or.inr (Or.inr hop)
    split at hw
    · rcases processSorobanEvents_writes fail cur _ tx w hw with hin | hev
      · rcases memB w hin with h1 | h2
        · exact Or.inl h1
        · rcases h2 with h2 | h3
          · exact Or.inr (Or.inl h2)
          · exact Or.inr (Or.inr (Or.inl h3))
      · exact Or.inr (Or.inr (Or.inr hev))
    · rcases memB w hw with h1 | h2
      · exact Or.inl h1
      · rcases h2 with h2 | h3
        · exact Or.inr (Or.inl h2)
        · exact Or.inr (Or.inr (Or.inl h3))

theorem processTxs_keeps (fail : DBWrite → Bool) (cur ledgerSeq : Nat) :
    ∀ (txs : List TxData) (buf : List DBWrite) (w : DBWrite),
      w ∈ buf → w ∈ processTxs fail cur ledgerSeq txs buf := by
  intro txs
  induction txs with
  | nil => intro buf w hw; exact hw
  | cons tx rest ih =>
    intro buf w hw
    rw [processTxs]
    cases h : processTransaction fail cur ledgerSeq buf tx with
    | error e => exact ih buf w hw
    | ok buf1 => exact ih buf1 w (processTransaction_keeps h w hw)

theorem processTxs_eventRows (fail : DBWrite → Bool) (cur ledgerSeq : Nat) :
    ∀ (txs : List TxData) (buf : List DBWrite) (id : String) (lf : Nat),
      DBWrite.eventRow id lf ∈ processTxs fail cur ledgerSeq txs buf →
      DBWrite.eventRow id lf ∈ buf ∨ lf = cur := by
  intro txs
  induction txs with
  | nil => intro buf id lf hw; exact Or.inl hw
  | cons tx rest ih =>
    intro buf id lf hw
    rw [processTxs] at hw
    cases h : processTransaction fail cur ledgerSeq buf tx with
    | error e => rw [h] at hw; exact ih buf id lf hw
    | ok buf1 =>
      rw [h] at hw
      rcases ih buf1 id lf hw with hin | hcur
      · rcases processTransaction_writes h _ hin with h1 | h2 | h3 | h4
        · exact Or.inl h1
        · rcases h2 with ⟨tid, htid⟩; exact DBWrite.noConfusion htid
        · rcases h3 with ⟨oid, hoid⟩; exact DBWrite.noConfusion hoid
        · rcases h4 with ⟨-, -, -, -, e, -, heq⟩
          injection heq with h5 h6
          exact Or.inr h6
      · exact Or.inr hcur

theorem processLedger_ok_struct {fail : DBWrite → Bool} {db : List DBWrite}
    {cur : Nat} {l : LedgerData} {db1 : List DBWrite}
    (h : processLedger fail db cur l = .ok db1) :
    ∃ unit, db1 = db ++ unit ∧ DBWrite.ledgerRow l.sequence ∈ unit ∧
      DBWrite.checkpointRow l.sequence ∈ unit := by
  unfold processLedger at h
  dsimp only at h
  cases h0 : execWrite fail [] (.ledgerRow l.sequence) with
  | error e => rw [h0] at h; exact Except.noConfusion h
  | ok buf0 =>
    rw [h0] at h
    dsimp only at h
    cases h1 : execWrite fail (processTxs fail cur l.sequence l.txs buf0)
        (.checkpointRow l.sequence) with
    | error e => rw [h1] at h; exact Except.noConfusion h
    | ok buf2 =>
      rw [h1] at h
      dsimp only at h
      injection h with h2
      refine ⟨buf2, h2.symm, ?_, ?_⟩
      · rw [execWrite_ok_eq h1]
        refine List.mem_append_left _ ?_
        refine processTxs_keeps fail cur l.sequence l.txs buf0 _ ?_
        rw [execWrite_ok_eq h0]
        simp
      · rw [execWrite_ok_eq h1]
        simp

theorem processLedger_eventRows {fail : DBWrite → Bool} {db : List DBWrite}
    {cur : Nat} {l : LedgerData} {db1 : List DBWrite}
    (h : processLedger fail db cur l = .ok db1)
    (id : String) (lf : Nat) (hmem : DBWrite.eventRow id lf ∈ db1) :
    DBWrite.eventRow id lf ∈ db ∨ lf = cur := by
  unfold processLedger at h
  dsimp only at h
  cases h0 : execWrite fail [] (.ledgerRow l.sequence) with
  | error e => rw [h0] at h; exact Except.noConfusion h
  | ok buf0 =>
    rw [h0] at h
    dsimp only at h
    cases h1 : execWrite fail (processTxs fail cur l.sequence l.txs buf0)
        (.checkpointRow l.sequence) with
    | error e => rw [h1] at h; exact Except.noConfusion h
    | ok buf2 =>
      rw [h1] at h
      dsimp only at h
      injection h with h2
      subst h2
      rcases List.mem_append.mp hmem with hl | hr
      · exact Or.inl hl
      · rw [execWrite_ok_eq h1] at hr
        rcases List.mem_append.mp hr with hr1 | hr2
        · rcases processTxs_eventRows fail cur l.sequence l.txs buf0 id lf hr1 with hin | hcur
          · rw [execWrite_ok_eq h0] at hin
            simp at hin
          · exact Or.inr hcur
        · simp at hr2

/-! ## Lemmas about the streaming loop -/

theorem ingestStep_keeps (fail : DBWrite → Bool) (fetch : Nat → FetchResult)
    (s : IngestState) (w : DBWrite) (hw : w ∈ s.db) :
    w ∈ (ingestStep fail fetch s).db := by
  unfold ingestStep
  cases hf : fetch (s.currentLedger + 1) with
  | eof => exact hw
  | fetchErr => exact hw
  | ok l =>
    dsimp only
    cases h : processLedger fail s.db s.currentLedger l with
    | error e => exact hw
    | ok db1 =>
      dsimp only
      obtain ⟨unit, hu, -, -⟩ := processLedger_ok_struct h
      simp only [hu]
      exact List.mem_append_left _ hw

theorem ingestStep_cases (fail : DBWrite → Bool) (fetch : Nat → FetchResult)
    (s : IngestState) :
    ingestStep fail fetch s = s ∨
      ∃ l db1, fetch (s.currentLedger + 1) = .ok l ∧
        processLedger fail s.db s.currentLedger l = .ok db1 ∧
        ingestStep fail fetch s =
          { db := db1, currentLedger := l.sequence,
            ledgersProcessed := s.ledgersProcessed + 1 } := by
  unfold ingestStep
  cases hf : fetch (s.currentLedger + 1) with
  | eof => exact Or.inl rfl
  | fetchErr => exact Or.inl rfl
  | ok l =>
    dsimp only
    cases h : processLedger fail s.db s.currentLedger l with
    | error e => exact Or.inl rfl
    | ok db1 => exact Or.inr ⟨l, db1, rfl, h, rfl⟩

/-! ## Lemmas about the value decoder -/

theorem hexDigit_mem_lowerHex {n : Nat} (h : n < 16) :
    hexDigit n ∈ lowerHexDigits := by
  interval_cases n <;> decide

theorem bytesToHexChars_mem_lowerHex :
    ∀ (bs : List Nat) (c : Char), c ∈ bytesToHexChars bs → c ∈ lowerHexDigits := by
  intro bs
  induction bs with
  | nil => intro c hc; exact absurd hc (List.not_mem_nil c)
  | cons b rest ih =>
    intro c hc
    rw [bytesToHexChars] at hc
    rcases List.mem_cons.mp hc with heq | hc
    · rw [heq]; exact hexDigit_mem_lowerHex (Nat.mod_lt _ (by norm_num))
    · rcases List.mem_cons.mp hc with heq | hc
      · rw [heq]; exact hexDigit_mem_lowerHex (Nat.mod_lt _ (by norm_num))
      · exact ih c hc

theorem scValListToJSON_eq_map (xs : List ScVal) :
    scValListToJSON xs = xs.map scValToJSON := by
  induction xs with
  | nil => rfl
  | cons x rest ih => rw [scValListToJSON, ih, List.map_cons]

theorem mem_upsertKey (k : String) (v : JVal) :
    ∀ (m : List (String × JVal)) (kv : String × JVal),
      kv ∈ upsertKey k v m → kv = (k, v) ∨ kv ∈ m := by
  intro m
  induction m with
  | nil =>
    intro kv hkv
    rw [upsertKey] at hkv
    exact Or.inl (List.mem_singleton.mp hkv)
  | cons p rest ih =>
    intro kv hkv
    rw [upsertKey] at hkv
    split at hkv
    · rcases List.mem_cons.mp hkv with heq | hkv2
      · exact Or.inl heq
      · exact Or.inr (List.mem_cons_of_mem _ hkv2)
    · rcases List.mem_cons.mp hkv with heq | hkv2
      · refine Or.inr ?_
        rw [heq]
        exact List.mem_cons_self _ _
      · rcases ih kv hkv2 with h1 | h2
        · exact Or.inl h1
        · exact Or.inr (List.mem_cons_of_mem _ h2)

theorem mem_scMapToJSON :
    ∀ (es : List (ScVal × ScVal)) (acc : List (String × JVal))
      (kv : String × JVal), kv ∈ scMapToJSON es acc →
      kv ∈ acc ∨ ∃ e ∈ es, kv.1 = scValToString e.1 ∧ kv.2 = scValToJSON e.2 := by
  intro es
  induction es with
  | nil => intro acc kv hkv; exact Or.inl hkv
  | cons e rest ih =>
    intro acc kv hkv
    rw [scMapToJSON] at hkv
    rcases ih _ kv hkv with hin | ⟨e1, he1, hkv1⟩
    · rcases mem_upsertKey _ _ acc kv hin with heq | hacc
      · exact Or.inr ⟨e, List.mem_cons_self _ _, by rw [heq], by rw [heq]⟩
      · exact Or.inl hacc
    · exact Or.inr ⟨e1, List.mem_cons_of_mem _ he1, hkv1⟩

/-! ## Claim theorems -/

/-- C3: the contract-filter predicate rejects the empty address under every
configured filter set; with an empty filter set every non-empty address is
allowed; with a non-empty filter set a non-empty address is allowed iff it
is a member of the set. -/
theorem contract_filter_correct (fs : List String) (a : String) :
    isFilteredContract fs "" = false ∧
    (a ≠ "" → fs = [] → isFilteredContract fs a = true) ∧
    (a ≠ "" → fs ≠ [] → (isFilteredContract fs a = true ↔ a ∈ fs)) := by
  refine ⟨by simp [isFilteredContract], ?_, ?_⟩
  · intro ha hfs
    subst hfs
    simp [isFilteredContract, ha]
  · intro ha hfs
    simp [isFilteredContract, ha, hfs]

/-- Witness for `contract_filter_correct` at the vectors of the test table
in `TestContractFiltering`. -/
theorem contract_filter_correct_witness :
    isFilteredContract ["abc123"] "" = false ∧
    isFilteredContract [] "abc123" = true ∧
    (isFilteredContract ["abc123", "def456"] "xyz789" = true ↔
      "xyz789" ∈ ["abc123", "def456"]) :=
  ⟨(contract_filter_correct ["abc123"] "x").1,
   (contract_filter_correct [] "abc123").2.1 (by decide) rfl,
   (contract_filter_correct ["abc123", "def456"] "xyz789").2.2 (by decide) (by decide)⟩

/-- C5: for a contract value whose variant lies outside the recognized
closed set, the string decoder and the JSON decoder both return the
lowercase hex of the value re-encoded to its binary wire form, the two
outputs are equal, and every character of the output is a lowercase hex
digit; both decoders are total functions. -/
theorem decoder_fallback_hex (wire : List Nat) :
    scValToString (.scvOther wire) = bytesToHex (marshalBinary (.scvOther wire)) ∧
    scValToJSON (.scvOther wire) = .jStr (scValToString (.scvOther wire)) ∧
    ∀ c ∈ (scValToString (.scvOther wire)).data, c ∈ lowerHexDigits := by
  refine ⟨rfl, by simp [scValToJSON, scValToString], ?_⟩
  intro c hc
  exact bytesToHexChars_mem_lowerHex wire c hc

/-- Witness for `decoder_fallback_hex` at the two-byte wire form `ab00`. -/
theorem decoder_fallback_hex_witness :
    scValToString (.scvOther [171, 0]) =
      bytesToHex (marshalBinary (.scvOther [171, 0])) ∧
    scValToJSON (.scvOther [171, 0]) =
      .jStr (scValToString (.scvOther [171, 0])) ∧
    ('a' : Char) ∈ lowerHexDigits :=
  ⟨(decoder_fallback_hex [171, 0]).1, (decoder_fallback_hex [171, 0]).2.1,
   (decoder_fallback_hex [171, 0]).2.2 'a' (by decide)⟩

/-- C8: the JSON decoder maps a vector value to the ordered array of the
recursively decoded elements, and a map value to a key-value structure in
which every key is the canonical string form of the entry key (via the
string decoder) and every value is the recursively JSON-decoded entry
value. -/
theorem json_decoder_vec_map (xs : List ScVal) (entries : List (ScVal × ScVal)) :
    scValToJSON (.scvVec xs) = .jArr (xs.map scValToJSON) ∧
    ∃ m, scValToJSON (.scvMap entries) = .jObj m ∧
      ∀ kv ∈ m, ∃ e ∈ entries,
        kv.1 = scValToString e.1 ∧ kv.2 = scValToJSON e.2 := by
  constructor
  · rw [scValToJSON, scValListToJSON_eq_map]
  · refine ⟨scMapToJSON entries [], by rw [scValToJSON], ?_⟩
    intro kv hkv
    rcases mem_scMapToJSON entries [] kv hkv with hin | h
    · exact absurd hin (List.not_mem_nil kv)
    · exact h

/-- Witness for `json_decoder_vec_map`: a two-element vector and a
one-entry map with a symbol key. -/
theorem json_decoder_vec_map_witness :
    scValToJSON (.scvVec [.scvSymbol "COUNTER", .scvI32 5]) =
      .jArr [.jStr "COUNTER", .jInt 5] ∧
    ∃ e ∈ [(ScVal.scvSymbol "key1", ScVal.scvI32 100)],
      "key1" = scValToString e.1 ∧ JVal.jInt 100 = scValToJSON e.2 := by
  constructor
  · have h := (json_decoder_vec_map [.scvSymbol "COUNTER", .scvI32 5] []).1
    rw [h]
    simp [scValToJSON]
  · obtain ⟨m, hm, hmem⟩ :=
      (json_decoder_vec_map [] [(ScVal.scvSymbol "key1", ScVal.scvI32 100)]).2
    have h2 : scValToJSON (.scvMap [(ScVal.scvSymbol "key1", ScVal.scvI32 100)]) =
        .jObj [("key1", JVal.jInt 100)] := by
      rw [scValToJSON]
      simp [scMapToJSON, upsertKey, scValToString, scValToJSON]
    rw [h2] at hm
    injection hm with h3
    exact hmem ("key1", JVal.jInt 100) (h3 ▸ List.mem_cons_self _ _)

/-- C4 refutation: two distinct contract events of the same transaction —
same contract id, same topic count, different data — receive the same
derived event id `txHash-topicCount-contractId`, so the id derivation of
`storeSorobanEvent` collides within one transaction. -/
theorem eventId_collides :
    (⟨some [171, 205], false, [.scvSymbol "transfer"], .scvI32 1⟩ : CEvent) ≠
      (⟨some [171, 205], false, [.scvSymbol "transfer"], .scvI32 2⟩ : CEvent) ∧
    eventId "cafe" ⟨some [171, 205], false, [.scvSymbol "transfer"], .scvI32 1⟩ =
      eventId "cafe" ⟨some [171, 205], false, [.scvSymbol "transfer"], .scvI32 2⟩ := by
  constructor
  · intro h
    have hd := congrArg CEvent.data h
    simp only at hd
    injection hd with h1
    norm_num at h1
  · rfl

/-- C10: the `created_at` of the transaction record is the ingestion wall
clock at processing time (`time.Now()`), while the `closed_at` of the
ledger record
is the consensus close time from the header; whenever the two clocks
differ, the stored fields differ. -/
theorem createdAt_ingestion_clock (now : Int) (ledgerSeq : Nat) (tx : TxData)
    (l : LedgerData) :
    (mkTransaction now ledgerSeq tx).createdAt = now ∧
    (mkLedgerInfo l).closedAt = l.closeTime ∧
    (now ≠ l.closeTime →
      (mkTransaction now ledgerSeq tx).createdAt ≠ (mkLedgerInfo l).closedAt) :=
  ⟨rfl, rfl, fun h => h⟩

/-- Witness for `createdAt_ingestion_clock` at an ingestion clock of 10
against the close time of `sampleLedger`. -/
theorem createdAt_ingestion_clock_witness :
    (mkTransaction 10 5 sampleSorobanTx).createdAt = 10 ∧
    (mkLedgerInfo sampleLedger).closedAt = 1700000000 ∧
    (mkTransaction 10 5 sampleSorobanTx).createdAt ≠
      (mkLedgerInfo sampleLedger).closedAt :=
  ⟨(createdAt_ingestion_clock 10 5 sampleSorobanTx sampleLedger).1,
   (createdAt_ingestion_clock 10 5 sampleSorobanTx sampleLedger).2.1,
   (createdAt_ingestion_clock 10 5 sampleSorobanTx sampleLedger).2.2 (by decide)⟩

/-- C7: one publish step of the broadcast hub removes and closes exactly
the subscribers whose send queues are full — never blocking on them — and
delivers the message (appended in FIFO order) to every other registered
subscriber. -/
theorem hub_publish_drop_full {α : Type} (m : α) (clients : List (WSClient α)) :
    (broadcastStep m clients).1 =
      (clients.filter fun c => decide (c.send.length < c.sendCap)).map
        (fun c => { c with send := c.send ++ [m] }) ∧
    (broadcastStep m clients).2 =
      (clients.filter fun c => !decide (c.send.length < c.sendCap)).map
        (fun c => { c with closed := true }) := by
  induction clients with
  | nil => exact ⟨rfl, rfl⟩
  | cons c rest ih =>
    by_cases h : c.send.length < c.sendCap
    · simp [broadcastStep, h, ih.1, ih.2]
    · simp [broadcastStep, h, ih.1, ih.2]

/-- C1 (amended): the per-ledger unit aborts, leaving the committed
database unchanged, exactly when the ledger upsert or the checkpoint
update fails; when neither fails the unit commits, appending both the
ledger row and the checkpoint row in the same atomic unit; transaction,
operation and contract-event upsert failures do not abort the unit. -/
theorem ledger_unit_atomicity (fail : DBWrite → Bool) (db : List DBWrite)
    (cur : Nat) (l : LedgerData) :
    (fail (.ledgerRow l.sequence) = true →
      processLedger fail db cur l = .error ()) ∧
    (fail (.checkpointRow l.sequence) = true →
      processLedger fail db cur l = .error ()) ∧
    (fail (.ledgerRow l.sequence) = false →
      fail (.checkpointRow l.sequence) = false →
      ∃ db1, processLedger fail db cur l = .ok db1) ∧
    (∀ db1, processLedger fail db cur l = .ok db1 →
      ∃ unit, db1 = db ++ unit ∧ DBWrite.ledgerRow l.sequence ∈ unit ∧
        DBWrite.checkpointRow l.sequence ∈ unit) := by
  refine ⟨?_, ?_, ?_, fun db1 h => processLedger_ok_struct h⟩
  · intro h
    unfold processLedger
    rw [execWrite_fail h]
  · intro h
    unfold processLedger
    cases h0 : execWrite fail [] (.ledgerRow l.sequence) with
    | error e => rfl
    | ok buf0 =>
      dsimp only
      rw [execWrite_fail h]
  · intro h1 h2
    unfold processLedger
    rw [execWrite_succeed h1]
    dsimp only
    rw [execWrite_succeed h2]
    exact ⟨_, rfl⟩

/-- Witness for `ledger_unit_atomicity`: with no write failing, processing
`sampleLedger` commits one unit containing both its ledger row and its
checkpoint row. -/
theorem ledger_unit_atomicity_witness :
    (∃ db1, processLedger (fun _ => false) [] 4 sampleLedger = .ok db1) ∧
    (∃ unit, ([DBWrite.ledgerRow 5, DBWrite.txRow "5-0", DBWrite.opRow "5-0-0",
        DBWrite.eventRow (eventId "cafe" sampleEvent) 4,
        DBWrite.checkpointRow 5] : List DBWrite) = [] ++ unit ∧
      DBWrite.ledgerRow sampleLedger.sequence ∈ unit ∧
      DBWrite.checkpointRow sampleLedger.sequence ∈ unit) :=
  ⟨(ledger_unit_atomicity (fun _ => false) [] 4 sampleLedger).2.2.1 rfl rfl,
   (ledger_unit_atomicity (fun _ => false) [] 4 sampleLedger).2.2.2
     [DBWrite.ledgerRow 5, DBWrite.txRow "5-0", DBWrite.opRow "5-0-0",
      DBWrite.eventRow (eventId "cafe" sampleEvent) 4, DBWrite.checkpointRow 5]
     (by rfl)⟩

/-- C1 counterexample: with an oracle failing exactly the transaction-row
inserts, processing `sampleLedger` still commits — the unit is not
aborted: the ledger row and the checkpoint row of ledger 5 are committed
while its transaction row is missing, a visible partial commit. -/
theorem ledger_unit_partial_commit :
    failTxRowOnly (DBWrite.txRow "5-0") = true ∧
    processLedger failTxRowOnly [] 4 sampleLedger =
      .ok [DBWrite.ledgerRow 5, DBWrite.checkpointRow 5] ∧
    List.count (DBWrite.txRow "5-0")
      ([DBWrite.ledgerRow 5, DBWrite.checkpointRow 5] : List DBWrite) = 0 :=
  ⟨rfl, rfl, by decide⟩

/-- C6: `processTransaction` produces a contract-event row only when the
metadata of the transaction is the V3 variant with non-nil V3 pointer and
non-nil Soroban meta and the transaction result is successful; for every
other transaction, every event row of the output buffer was already in
the input buffer (no contract-event record is produced). -/
theorem events_only_v3_successful (fail : DBWrite → Bool) (cur ledgerSeq : Nat)
    (buf : List DBWrite) (tx : TxData) (buf1 : List DBWrite)
    (h : processTransaction fail cur ledgerSeq buf tx = .ok buf1)
    (id : String) (lf : Nat) (hmem : DBWrite.eventRow id lf ∈ buf1) :
    DBWrite.eventRow id lf ∈ buf ∨
      (tx.successful = true ∧ tx.metaV = 3 ∧ tx.hasV3 = true ∧
        tx.hasSorobanMeta = true) := by
  rcases processTransaction_writes h _ hmem with h1 | h2 | h3 | h4
  · exact Or.inl h1
  · rcases h2 with ⟨tid, htid⟩
    exact DBWrite.noConfusion htid
  · rcases h3 with ⟨oid, hoid⟩
    exact DBWrite.noConfusion hoid
  · exact Or.inr ⟨h4.1, h4.2.1, h4.2.2.1, h4.2.2.2.1⟩

/-- An unsuccessful variant of `sampleSorobanTx`, still carrying events. -/
def sampleFailedTx : TxData := { sampleSorobanTx with successful := false, index := 1 }

/-- Witness for `events_only_v3_successful`: processing the unsuccessful
`sampleFailedTx` leaves the only event row the one seeded in the input
buffer. -/
theorem events_only_v3_successful_witness :
    DBWrite.eventRow "seed" 9 ∈ ([DBWrite.eventRow "seed" 9] : List DBWrite) ∨
      (sampleFailedTx.successful = true ∧ sampleFailedTx.metaV = 3 ∧
        sampleFailedTx.hasV3 = true ∧ sampleFailedTx.hasSorobanMeta = true) :=
  events_only_v3_successful (fun _ => false) 4 5 [DBWrite.eventRow "seed" 9]
    sampleFailedTx
    [DBWrite.eventRow "seed" 9, DBWrite.txRow "5-1", DBWrite.opRow "5-1-0"]
    (by rfl) "seed" 9 (by decide)

/-- C9: every contract-event row newly committed by `processLedger`
carries in its ledger column the current-ledger cursor value of the ingester
from before the ledger was processed; when the processed ledger is
`cursor + 1` (steady state), the stored ledger column is the
sequence minus one — not the sequence itself. -/
theorem event_ledger_field_lags (fail : DBWrite → Bool) (db : List DBWrite)
    (cur : Nat) (l : LedgerData) (db1 : List DBWrite)
    (h : processLedger fail db cur l = .ok db1)
    (id : String) (lf : Nat) (hmem : DBWrite.eventRow id lf ∈ db1)
    (hnew : DBWrite.eventRow id lf ∉ db) :
    lf = cur ∧ (l.sequence = cur + 1 →
      lf = l.sequence - 1 ∧ lf ≠ l.sequence) := by
  rcases processLedger_eventRows h id lf hmem with hin | hcur
  · exact absurd hin hnew
  · subst hcur
    exact ⟨rfl, fun hs => ⟨by omega, by omega⟩⟩

/-- Witness for `event_ledger_field_lags`: processing `sampleLedger`
(sequence 5) from cursor 4 stores its contract event with ledger column
4, which is 5 - 1 and differs from 5. -/
theorem event_ledger_field_lags_witness :
    (4 : Nat) = 4 ∧ (sampleLedger.sequence = 4 + 1 →
      (4 : Nat) = sampleLedger.sequence - 1 ∧ (4 : Nat) ≠ sampleLedger.sequence) :=
  event_ledger_field_lags (fun _ => false) [] 4 sampleLedger
    [DBWrite.ledgerRow 5, DBWrite.txRow "5-0", DBWrite.opRow "5-0-0",
     DBWrite.eventRow (eventId "cafe" sampleEvent) 4, DBWrite.checkpointRow 5]
    (by rfl) (eventId "cafe" sampleEvent) 4 (by decide) (by decide)

/-- Coverage invariant of the streaming loop: after any number of
iterations, every sequence strictly between the starting cursor and the
current cursor has its ledger row committed. -/
theorem runIngest_covers (fail : DBWrite → Bool) (fetch : Nat → FetchResult)
    (s0 : IngestState) (hfetch : ∀ s l, fetch s = .ok l → l.sequence = s) :
    ∀ n k, s0.currentLedger < k →
      k ≤ (runIngest fail fetch s0 n).currentLedger →
      DBWrite.ledgerRow k ∈ (runIngest fail fetch s0 n).db := by
  intro n
  induction n with
  | zero =>
    intro k h1 h2
    rw [runIngest] at h2
    omega
  | succ n ih =>
    intro k h1 h2
    rw [runIngest] at h2 ⊢
    rcases ingestStep_cases fail fetch (runIngest fail fetch s0 n) with
      heq | ⟨l, db1, hfok, hpok, heq⟩
    · rw [heq] at h2 ⊢
      exact ih k h1 h2
    · rw [heq] at h2 ⊢
      dsimp only at h2 ⊢
      have hseq := hfetch _ _ hfok
      obtain ⟨unit, hu, hl, -⟩ := processLedger_ok_struct hpok
      by_cases hk : k ≤ (runIngest fail fetch s0 n).currentLedger
      · rw [hu]
        exact List.mem_append_left _ (ih k h1 hk)
      · have hkeq : k = l.sequence := by omega
        subst hkeq
        rw [hu]
        exact List.mem_append_right _ hl

/-- C2: the streaming loop never advances the cursor except after fully
successful processing of the fetched ledger: end-of-stream, other fetch
errors and processing failures each leave the state unchanged so the same
sequence is retried; one step advances the cursor by at most one; and
every sequence between the starting cursor and the current cursor has its
ledger row committed — no ledger is ever skipped. -/
theorem streaming_no_skip (fail : DBWrite → Bool) (fetch : Nat → FetchResult)
    (s0 : IngestState) (hfetch : ∀ s l, fetch s = .ok l → l.sequence = s)
    (n : Nat) :
    (fetch ((runIngest fail fetch s0 n).currentLedger + 1) = .eof →
      runIngest fail fetch s0 (n + 1) = runIngest fail fetch s0 n) ∧
    (fetch ((runIngest fail fetch s0 n).currentLedger + 1) = .fetchErr →
      runIngest fail fetch s0 (n + 1) = runIngest fail fetch s0 n) ∧
    (∀ l, fetch ((runIngest fail fetch s0 n).currentLedger + 1) = .ok l →
      processLedger fail (runIngest fail fetch s0 n).db
        (runIngest fail fetch s0 n).currentLedger l = .error () →
      runIngest fail fetch s0 (n + 1) = runIngest fail fetch s0 n) ∧
    ((runIngest fail fetch s0 (n + 1)).currentLedger =
        (runIngest fail fetch s0 n).currentLedger ∨
      (runIngest fail fetch s0 (n + 1)).currentLedger =
        (runIngest fail fetch s0 n).currentLedger + 1) ∧
    (∀ k, s0.currentLedger < k →
      k ≤ (runIngest fail fetch s0 n).currentLedger →
      DBWrite.ledgerRow k ∈ (runIngest fail fetch s0 n).db) := by
  refine ⟨?_, ?_, ?_, ?_, runIngest_covers fail fetch s0 hfetch n⟩
  · intro heof
    rw [runIngest]
    unfold ingestStep
    rw [heof]
  · intro herr
    rw [runIngest]
    unfold ingestStep
    rw [herr]
  · intro l hok hperr
    rw [runIngest]
    unfold ingestStep
    rw [hok]
    dsimp only
    rw [hperr]
  · rw [runIngest]
    rcases ingestStep_cases fail fetch (runIngest fail fetch s0 n) with
      heq | ⟨l, db1, hfok, hpok, heq⟩
    · rw [heq]
      exact Or.inl rfl
    · rw [heq]
      exact Or.inr (hfetch _ _ hfok)

/-- Witness for `streaming_no_skip`: two iterations against an
always-available empty-ledger backend, starting from cursor 4, commit the
ledger row of sequence 6. -/
theorem streaming_no_skip_witness :
    DBWrite.ledgerRow 6 ∈
      (runIngest (fun _ => false) emptyLedgerFetch ⟨[], 4, 0⟩ 2).db :=
  (streaming_no_skip (fun _ => false) emptyLedgerFetch ⟨[], 4, 0⟩
    (by
      intro s l h
      unfold emptyLedgerFetch at h
      injection h with h1
      rw [← h1]) 2).2.2.2.2 6 (by decide) (by decide)

end Sorobangraph
